import Mathlib

/-!
Verification of the subscription-detection core of the treeline-money
`plugin-subscriptions` repository (`src/SubscriptionsView.svelte`).  The
detection pipeline is the SQL query plus the row post-processing inside
`detectSubscriptions` (lines 108-199); the override store is the
`sys_plugin_subscriptions` table together with `hideSubscription` and
`unhideSubscription` (lines 202-228); the derived view state is
`visibleSubscriptions` (lines 37-39).

Modelling conventions of this shallow embedding:
* calendar dates are day numbers in `ℤ`, so `DATEDIFF('day', a, b)` is `b - a`;
* SQL and JS numbers are exact rationals `ℚ`;
* `Math.round x` is `⌊x + 1/2⌋` (JS rounds halves toward positive infinity);
* DuckDB `STDDEV` is the sample standard deviation; the HAVING condition
  `STDDEV(g) < AVG(g) * 0.3` is encoded squared, as
  `varSamp g < (3/10 * mean g) ^ 2`, which is equivalent whenever the
  accompanying condition `5 <= AVG(g)` holds (lemma `variance_stddev_bridge`);
* a thrown JS exception is `Except.error`, and a `toast` warning call is a
  `Bool` flag in the result of the corresponding state transition.

The library marks the rational operations irreducible, which only blocks the
elaborator's evaluation of concrete witnesses; they are restored to the
normal reducibility so that `decide` can evaluate the pipeline on concrete
inputs (the kernel itself ignores reducibility attributes).
-/

set_option allowUnsafeReducibility true
attribute [semireducible] Rat.add Rat.sub Rat.mul Rat.inv

/-- Transaction row of the `transactions` table: free-text description, signed
amount and date (a day number). -/
structure Txn where
  description : String
  amount : ℚ
  date : ℤ
deriving DecidableEq

/-- JS `Math.round`: round half toward positive infinity. -/
def jsRound (q : ℚ) : ℤ := Int.floor (q + 1 / 2)

/-- JS `Math.round(x * 100) / 100`: round to two decimals, half up. -/
def round2 (q : ℚ) : ℚ := (jsRound (q * 100) : ℚ) / 100

/-- SQL `AVG` of a list of rationals. -/
def meanQ (l : List ℚ) : ℚ := l.sum / (l.length : ℚ)

/-- Square of DuckDB `STDDEV` (sample standard deviation): the sample
variance, with denominator `n - 1`. -/
def varSamp (l : List ℚ) : ℚ :=
  ((l.map (fun x => (x - meanQ l) ^ 2)).sum) / ((l.length : ℚ) - 1)

/-- Consecutive differences of a list of dates: the day gaps that the
`LAG(transaction_date)` window plus `DATEDIFF` produce. -/
def diffs : List ℤ → List ℤ
  | a :: b :: rest => (b - a) :: diffs (b :: rest)
  | _ => []

/-- Stable insert into a list that is ascending by date (ties keep input
order), for the `ORDER BY transaction_date` window order. -/
def insertAsc (a : Txn) : List Txn → List Txn
  | [] => [a]
  | b :: rest => if b.date < a.date then b :: insertAsc a rest else a :: b :: rest

/-- Stable insertion sort ascending by date. -/
def sortAsc : List Txn → List Txn
  | [] => []
  | a :: rest => insertAsc a (sortAsc rest)

/-- Stable insert for the descending `ORDER BY ... DESC` sort on a rational
ranking key. -/
def insertDesc {α : Type} (key : α → ℚ) (a : α) : List α → List α
  | [] => [a]
  | b :: rest => if key a < key b then b :: insertDesc key a rest else a :: b :: rest

/-- Stable insertion sort descending by a rational ranking key. -/
def sortDesc {α : Type} (key : α → ℚ) : List α → List α
  | [] => []
  | a :: rest => insertDesc key a (sortDesc key rest)

/-- Deduplicate keeping first occurrences: the distinct `GROUP BY` keys in a
deterministic order. -/
def dedupAcc (seen : List String) : List String → List String
  | [] => []
  | a :: rest => if a ∈ seen then dedupAcc seen rest else a :: dedupAcc (a :: seen) rest

/-- WHERE clause of the `merchant_transactions` CTE: only charges
(`amount < 0`) with a non-null, non-empty description. -/
def charges (txns : List Txn) : List Txn :=
  txns.filter (fun t => decide (t.amount < 0) && decide (t.description ≠ ""))

/-- Merchant key of a transaction: the SQL partitions and groups by the raw
`description`, so the key is the description itself - there is no trimming,
case folding or fuzzy normalization anywhere in the query. -/
def merchantKey (t : Txn) : String := t.description

/-- The distinct merchant keys among the charges. -/
def chargeMerchants (txns : List Txn) : List String :=
  dedupAcc [] ((charges txns).map merchantKey)

/-- The cluster of merchant `m`: all charges whose description equals `m`. -/
def clusterTx (txns : List Txn) (m : String) : List Txn :=
  (charges txns).filter (fun t => decide (merchantKey t = m))

/-- The cluster sorted ascending by date (the window order used by `LAG`). -/
def sortedCluster (txns : List Txn) (m : String) : List Txn :=
  sortAsc (clusterTx txns m)

/-- The cluster's charge dates in ascending order. -/
def clusterDates (txns : List Txn) (m : String) : List ℤ :=
  (sortedCluster txns m).map Txn.date

/-- The day gaps of the cluster: the `interval_days` column of the
`merchant_intervals` CTE, one row per charge except the first. -/
def gapList (txns : List Txn) (m : String) : List ℚ :=
  (diffs (clusterDates txns m)).map (fun z => ((z : ℤ) : ℚ))

/-- SQL `AVG(interval_days)` of the cluster. -/
def avgInterval (txns : List Txn) (m : String) : ℚ := meanQ (gapList txns m)

/-- SQL `AVG(ABS(amount))` over `merchant_intervals`.  The rows of
`merchant_intervals` satisfy `prev_date IS NOT NULL`, so the chronologically
first charge of the cluster is excluded from this average. -/
def avgAmount (txns : List Txn) (m : String) : ℚ :=
  meanQ ((sortedCluster txns m).tail.map (fun t => |t.amount|))

/-- HAVING clause of the `merchant_stats` CTE: `COUNT(*) >= 2` gaps,
`AVG(interval_days) BETWEEN 5 AND 400`, and
`STDDEV(interval_days) < AVG(interval_days) * 0.3` (the last one encoded
squared, see the module comment). -/
def acceptsB (txns : List Txn) (m : String) : Bool :=
  decide (2 ≤ (gapList txns m).length) &&
  decide (5 ≤ avgInterval txns m) &&
  decide (avgInterval txns m ≤ 400) &&
  decide (varSamp (gapList txns m) < (3 / 10 * avgInterval txns m) ^ 2)

/-- Ranking key of `ORDER BY avg_amount * (365.0 / avg_interval) DESC`. -/
def qcost (txns : List Txn) (m : String) : ℚ :=
  avgAmount txns m * (365 / avgInterval txns m)

/-- Frequency label computed from the rounded mean interval: the if/else
chain on `intervalDays`.  Every branch assigns a label, so the initializer
value `"unknown"` is always overwritten. -/
def freqLabel (d : ℤ) : String :=
  if d ≤ 8 then "weekly"
  else if d ≤ 16 then "bi-weekly"
  else if d ≤ 35 then "monthly"
  else if d ≤ 100 then "quarterly"
  else if d ≤ 200 then "semi-annual"
  else "annual"

/-- Output record: the `Subscription` interface of the source. -/
structure SubRecord where
  merchant : String
  amount : ℚ
  frequency : String
  interval_days : ℤ
  occurrence_count : ℕ
  annual_cost : ℚ
  first_charge : ℤ
  last_charge : ℤ
  is_hidden : Bool
deriving DecidableEq

/-- Row post-processing of `detectSubscriptions`: build one `Subscription`
record from the cluster statistics of merchant `m`.  `first_charge` is the
SQL `MIN(transaction_date)` over the interval rows, i.e. the second-earliest
charge date; `last_charge` is the `MAX`.  `H` is the in-memory
`hiddenMerchants` set. -/
def mkRecord (txns : List Txn) (H : List String) (m : String) : SubRecord :=
  let d := jsRound (avgInterval txns m)
  { merchant := m
    amount := round2 (avgAmount txns m)
    frequency := freqLabel d
    interval_days := d
    occurrence_count := (gapList txns m).length + 1
    annual_cost := round2 (avgAmount txns m * (365 / (d : ℚ)))
    first_charge := (clusterDates txns m).tail.headD 0
    last_charge := (clusterDates txns m).getLastD 0
    is_hidden := decide (m ∈ H) }

/-- The detection pipeline (success path of `detectSubscriptions`): keep the
accepted merchant clusters, order them descending by the SQL ranking key, and
map each to its output record. -/
def detect (txns : List Txn) (H : List String) : List SubRecord :=
  (sortDesc (qcost txns) ((chargeMerchants txns).filter (acceptsB txns))).map
    (mkRecord txns H)

/-- One run of `detectSubscriptions` as a state transition on the
`subscriptions` state: on a successful query the state is replaced by the
freshly detected list; when the query throws, the `catch` block fires
`toast.error` (the `Bool` flag) and leaves the previous state untouched. -/
def detectRun (prev : List SubRecord) (qres : Except String (List Txn))
    (H : List String) : List SubRecord × Bool :=
  match qres with
  | Except.ok txns => (detect txns H, false)
  | Except.error _ => (prev, true)

/-- The `visibleSubscriptions` derived view: a record is shown when
`showHidden` is on or its merchant is not in the hidden set. -/
def visibleSubs (subs : List SubRecord) (hidden : List String)
    (showHidden : Bool) : List SubRecord :=
  subs.filter (fun s => showHidden || !(decide (s.merchant ∈ hidden)))

/-- `hideSubscription` on the in-memory set: the set is updated only after
the awaited `INSERT ... ON CONFLICT` succeeds; when the write throws, the
`catch` block signals `toast.error` (the `Bool`) and the set is unchanged. -/
def hideAction (writeOk : Bool) (m : String) (hidden : List String) :
    List String × Bool :=
  if writeOk then (hidden.insert m, false) else (hidden, true)

/-- `unhideSubscription` on the in-memory set, analogous to `hideAction`
(JS `Set.delete` is membership removal). -/
def unhideAction (writeOk : Bool) (m : String) (hidden : List String) :
    List String × Bool :=
  if writeOk then (hidden.filter (fun x => decide (x ≠ m)), false)
  else (hidden, true)

/-- The persisted override table `sys_plugin_subscriptions (merchant PRIMARY
KEY, hidden_at TIMESTAMP)`, as an association list of key and timestamp. -/
abbrev OStore := List (String × ℤ)

/-- Whether the table has a row keyed `m`. -/
def hasKey (m : String) (s : OStore) : Bool := s.any (fun p => decide (p.1 = m))

/-- Number of rows keyed `m`. -/
def keyCount (m : String) (s : OStore) : ℕ :=
  s.countP (fun p => decide (p.1 = m))

/-- Point update used by the upsert: the row keyed `m` gets `hidden_at` set
to `now`, every other row is untouched. -/
def updEntry (m : String) (now : ℤ) (p : String × ℤ) : String × ℤ :=
  if p.1 = m then (m, now) else p

/-- `hideSubscription`'s write: `INSERT INTO sys_plugin_subscriptions VALUES
(m, NOW()) ON CONFLICT (merchant) DO UPDATE SET hidden_at = NOW()` - an
upsert that refreshes `hidden_at` when the row exists and inserts otherwise. -/
def hideStore (now : ℤ) (m : String) (s : OStore) : OStore :=
  if hasKey m s then s.map (updEntry m now) else s ++ [(m, now)]

/-- `unhideSubscription`'s write: `DELETE FROM sys_plugin_subscriptions WHERE
merchant = m`; deleting an absent key is a total no-op. -/
def unhideStore (m : String) (s : OStore) : OStore :=
  s.filter (fun p => decide (p.1 ≠ m))

/-- Forget the hidden flag of a record, for comparing detection output across
different override states. -/
def stripHidden (r : SubRecord) : SubRecord := { r with is_hidden := false }

/-- Modelled from the spec: the spec's claimed cost formula, for the
refinement comparison of claim C3.  In the spec's words the representative
amount is the half-up-rounded mean of ALL of the cluster's absolute charge
amounts, and the annual cost is that rounded amount times
`365 / interval_days`, rounded again to two decimals.  (The source computes
neither: it averages only the interval rows and multiplies unrounded.) -/
def specAnnualCost (txns : List Txn) (m : String) : ℚ :=
  round2 (round2 (meanQ ((clusterTx txns m).map (fun t => |t.amount|))) *
    (365 / (jsRound (avgInterval txns m) : ℚ)))

/-- Modelled from the spec: the Jaro match window `max(|a|,|b|)/2 - 1`.  The
source contains no similarity function at all (grouping is by exact
description); the spec and the repository README name Jaro-Winkler, so the
metric is reproduced here only to state claim C1. -/
def jaroWindow (l1 l2 : ℕ) : ℕ := (max l1 l2) / 2 - 1

/-- Modelled from the spec: first index `j` in `[lo, hi)` whose character of
`s2` is unused and equals `c`. -/
def findMatchIdx (c : Char) (s2 : List Char) (used : List Bool)
    (lo hi : ℕ) : Option ℕ :=
  (List.range s2.length).find?
    (fun j => decide (lo ≤ j) && decide (j < hi) && !(used.getD j true) &&
      decide (s2.getD j ' ' = c))

/-- Modelled from the spec: the Jaro matching pass.  Returns the usage mask
over `s2` and the matched characters of `s1` in order. -/
def jaroScan (s1 s2 : List Char) : List Bool × List Char :=
  (List.range s1.length).foldl
    (fun acc i =>
      let w := jaroWindow s1.length s2.length
      let c := s1.getD i ' '
      match findMatchIdx c s2 acc.1 (i - w) (min s2.length (i + w + 1)) with
      | some j => (acc.1.set j true, acc.2 ++ [c])
      | none => acc)
    (List.replicate s2.length false, [])

/-- Modelled from the spec: the characters of `s2` selected by the usage
mask, in index order. -/
def maskedChars (s2 : List Char) (used : List Bool) : List Char :=
  ((s2.zip used).filter (fun p => p.2)).map (fun p => p.1)

/-- Modelled from the spec: number of position mismatches between the two
matched sequences (twice the Jaro transposition count). -/
def halfTranspositions : List Char → List Char → ℕ
  | a :: as, b :: bs => (if a = b then 0 else 1) + halfTranspositions as bs
  | _, _ => 0

/-- Modelled from the spec: the Jaro similarity of two strings. -/
def jaroSim (a b : String) : ℚ :=
  let s1 := a.toList
  let s2 := b.toList
  let scan := jaroScan s1 s2
  let m1 := scan.2
  let m2 := maskedChars s2 scan.1
  if m1.length = 0 then 0
  else
    let m : ℚ := (m1.length : ℚ)
    let t : ℚ := (halfTranspositions m1 m2 : ℚ) / 2
    (m / (s1.length : ℚ) + m / (s2.length : ℚ) + (m - t) / m) / 3

/-- Modelled from the spec: the length of the common prefix of two strings,
used by the Winkler boost. -/
def commonPrefixLen : List Char → List Char → ℕ
  | a :: as, b :: bs => if a = b then commonPrefixLen as bs + 1 else 0
  | _, _ => 0

/-- Modelled from the spec: the Jaro-Winkler similarity with the standard
scaling factor 0.1 and prefix cap 4. -/
def jaroWinkler (a b : String) : ℚ :=
  let j := jaroSim a b
  let l : ℚ := (min (commonPrefixLen a.toList b.toList) 4 : ℕ)
  j + l * (1 / 10) * (1 - j)

/-! Helper lemmas about the sorting, grouping and rounding building blocks. -/

theorem mem_insertDesc {α : Type} (key : α → ℚ) (a x : α) (l : List α) :
    x ∈ insertDesc key a l ↔ x = a ∨ x ∈ l := by
  induction l with
  | nil => simp [insertDesc]
  | cons b rest ih =>
      by_cases h : key a < key b
      · simp only [insertDesc, if_pos h, List.mem_cons, ih]
        tauto
      · simp only [insertDesc, if_neg h, List.mem_cons]

theorem mem_sortDesc {α : Type} (key : α → ℚ) (x : α) (l : List α) :
    x ∈ sortDesc key l ↔ x ∈ l := by
  induction l with
  | nil => simp [sortDesc]
  | cons a rest ih => simp [sortDesc, mem_insertDesc, ih]

theorem pairwise_insertDesc {α : Type} (key : α → ℚ) (a : α) (l : List α)
    (h : l.Pairwise (fun x y => key y ≤ key x)) :
    (insertDesc key a l).Pairwise (fun x y => key y ≤ key x) := by
  induction l with
  | nil => simp [insertDesc]
  | cons b rest ih =>
      rcases List.pairwise_cons.mp h with ⟨hb, hrest⟩
      by_cases hab : key a < key b
      · simp only [insertDesc, if_pos hab]
        refine List.pairwise_cons.mpr ⟨?_, ih hrest⟩
        intro x hx
        rcases (mem_insertDesc key a x rest).mp hx with rfl | hxr
        · exact le_of_lt hab
        · exact hb x hxr
      · simp only [insertDesc, if_neg hab]
        refine List.pairwise_cons.mpr ⟨?_, h⟩
        intro x hx
        rcases List.mem_cons.mp hx with rfl | hxr
        · exact le_of_not_lt hab
        · exact le_trans (hb x hxr) (le_of_not_lt hab)

theorem pairwise_sortDesc {α : Type} (key : α → ℚ) (l : List α) :
    (sortDesc key l).Pairwise (fun x y => key y ≤ key x) := by
  induction l with
  | nil => simp [sortDesc]
  | cons a rest ih => exact pairwise_insertDesc key a _ ih

theorem insertAsc_length (a : Txn) (l : List Txn) :
    (insertAsc a l).length = l.length + 1 := by
  induction l with
  | nil => rfl
  | cons b rest ih =>
      by_cases h : b.date < a.date
      · simp [insertAsc, if_pos h, ih]
      · simp [insertAsc, if_neg h]

theorem sortAsc_length (l : List Txn) : (sortAsc l).length = l.length := by
  induction l with
  | nil => rfl
  | cons a rest ih => simp [sortAsc, insertAsc_length, ih]

theorem diffs_length (l : List ℤ) : (diffs l).length = l.length - 1 := by
  induction l with
  | nil => rfl
  | cons a rest ih =>
      cases rest with
      | nil => rfl
      | cons b r2 =>
          simp only [diffs, List.length_cons]
          simp only [diffs, List.length_cons] at ih
          omega

theorem gapList_length (txns : List Txn) (m : String) :
    (gapList txns m).length = (clusterTx txns m).length - 1 := by
  simp only [gapList, clusterDates, sortedCluster, List.length_map,
    diffs_length, sortAsc_length]

theorem mem_dedupAcc (a : String) (l : List String) :
    ∀ seen, a ∈ dedupAcc seen l ↔ a ∈ l ∧ a ∉ seen := by
  induction l with
  | nil => intro seen; simp [dedupAcc]
  | cons b rest ih =>
      intro seen
      by_cases hb : b ∈ seen
      · rw [dedupAcc, if_pos hb, ih seen]
        constructor
        · rintro ⟨h1, h2⟩
          exact ⟨List.mem_cons_of_mem _ h1, h2⟩
        · rintro ⟨h1, h2⟩
          rcases List.mem_cons.mp h1 with rfl | h1
          · exact absurd hb h2
          · exact ⟨h1, h2⟩
      · rw [dedupAcc, if_neg hb]
        constructor
        · intro h
          rcases List.mem_cons.mp h with rfl | h
          · exact ⟨List.mem_cons_self _ _, hb⟩
          · rcases (ih (b :: seen)).mp h with ⟨h1, h2⟩
            exact ⟨List.mem_cons_of_mem _ h1,
              fun hs => h2 (List.mem_cons_of_mem _ hs)⟩
        · rintro ⟨h1, h2⟩
          rcases List.mem_cons.mp h1 with rfl | h1
          · exact List.mem_cons_self _ _
          · by_cases hab : a = b
            · subst hab; exact List.mem_cons_self _ _
            · refine List.mem_cons_of_mem _ ((ih (b :: seen)).mpr ⟨h1, ?_⟩)
              intro hs
              rcases List.mem_cons.mp hs with h3 | h3
              · exact hab h3
              · exact h2 h3

theorem acceptsB_iff (txns : List Txn) (m : String) :
    acceptsB txns m = true ↔
      2 ≤ (gapList txns m).length ∧ 5 ≤ avgInterval txns m ∧
      avgInterval txns m ≤ 400 ∧
      varSamp (gapList txns m) < (3 / 10 * avgInterval txns m) ^ 2 := by
  simp [acceptsB, and_assoc]

theorem merchant_mem_of_cluster (txns : List Txn) (m : String)
    (h : clusterTx txns m ≠ []) : m ∈ chargeMerchants txns := by
  unfold chargeMerchants
  rw [mem_dedupAcc]
  refine ⟨?_, List.not_mem_nil m⟩
  obtain ⟨t, ht⟩ := List.exists_mem_of_ne_nil _ h
  rcases List.mem_filter.mp ht with ⟨htc, hdm⟩
  exact List.mem_map.mpr ⟨t, htc, of_decide_eq_true hdm⟩

theorem mem_detect_iff (txns : List Txn) (H : List String) (r : SubRecord) :
    r ∈ detect txns H ↔
      ∃ m, m ∈ chargeMerchants txns ∧ acceptsB txns m = true ∧
        r = mkRecord txns H m := by
  unfold detect
  simp only [List.mem_map, mem_sortDesc, List.mem_filter]
  constructor
  · rintro ⟨m, ⟨hm, hacc⟩, rfl⟩
    exact ⟨m, hm, hacc, rfl⟩
  · rintro ⟨m, hm, hacc, rfl⟩
    exact ⟨m, ⟨hm, hacc⟩, rfl⟩

theorem jsRound_ge (q : ℚ) (n : ℤ) (h : (n : ℚ) ≤ q) : n ≤ jsRound q := by
  unfold jsRound
  refine Int.le_floor.mpr ?_
  linarith

theorem jsRound_le (q : ℚ) (n : ℤ) (h : q ≤ (n : ℚ)) : jsRound q ≤ n := by
  have h2 : jsRound q < n + 1 := by
    unfold jsRound
    refine Int.floor_lt.mpr ?_
    push_cast
    linarith
  omega

theorem freqLabel_total (d : ℤ) :
    freqLabel d = "weekly" ∨ freqLabel d = "bi-weekly" ∨
    freqLabel d = "monthly" ∨ freqLabel d = "quarterly" ∨
    freqLabel d = "semi-annual" ∨ freqLabel d = "annual" := by
  unfold freqLabel
  split_ifs <;> simp

theorem variance_stddev_bridge (v c : ℚ) (hc : 0 < c) :
    Real.sqrt (v : ℝ) < (c : ℝ) ↔ v < c ^ 2 := by
  rw [Real.sqrt_lt' (by exact_mod_cast hc)]
  constructor
  · intro h; exact_mod_cast h
  · intro h; exact_mod_cast h

/-! Concrete inputs used by witnesses and counterexamples. -/

/-- Three GYM charges of 40 on days 0, 31, 61: gaps 31 and 30, mean 30.5. -/
def txGym : List Txn :=
  [⟨"GYM", -40, 0⟩, ⟨"GYM", -40, 31⟩, ⟨"GYM", -40, 61⟩]

/-- A merchant with exactly two charges. -/
def txSolo : List Txn := [⟨"SOLO", -5, 0⟩, ⟨"SOLO", -5, 30⟩]

/-- Two near-duplicate descriptions that Jaro-Winkler scores above 0.90. -/
def txC1 : List Txn :=
  [⟨"SPOTIFY USA", -999/100, 0⟩, ⟨"SPOTIFY USA 2", -999/100, 3⟩]

/-- Three charges of exactly 15.00 every 30 days. -/
def txSpot : List Txn :=
  [⟨"SPOTIFY", -15, 0⟩, ⟨"SPOTIFY", -15, 30⟩, ⟨"SPOTIFY", -15, 60⟩]

/-- ALPHA has a first charge whose amount differs from the rest; BRAVO has
amounts of 1.004 whose mean does not survive two-decimal pre-rounding. -/
def txC3 : List Txn :=
  [⟨"ALPHA", -3, 0⟩, ⟨"ALPHA", -1, 5⟩, ⟨"ALPHA", -1, 10⟩,
   ⟨"BRAVO", -251/250, 0⟩, ⟨"BRAVO", -251/250, 5⟩, ⟨"BRAVO", -251/250, 10⟩]

/-- AAA has mean gap 5.4 (ranking key 365/5.4) but rounded interval 5
(annual cost 73.00); BBB has mean gap 5 and amount 0.95 (both keys 69.35). -/
def txC4 : List Txn :=
  [⟨"AAA", -1, 0⟩, ⟨"AAA", -1, 5⟩, ⟨"AAA", -1, 10⟩, ⟨"AAA", -1, 15⟩,
   ⟨"AAA", -1, 20⟩, ⟨"AAA", -1, 27⟩,
   ⟨"BBB", -19/20, 0⟩, ⟨"BBB", -19/20, 5⟩, ⟨"BBB", -19/20, 10⟩]

/-! The claims. -/

/-- C1: the spec and the repository README promise Jaro-Winkler fuzzy
merchant merging with threshold 0.90, and "SPOTIFY USA" and "SPOTIFY USA 2"
indeed score 63/65, above the threshold - but the query partitions and groups
by the raw description, so the two transactions get distinct merchant keys
and land in two distinct clusters.  (The other half of the claim does hold:
exact grouping never merges distinct descriptions such as SPOTIFY and
NETFLIX.) -/
theorem C1_no_fuzzy_merge :
    9 / 10 ≤ jaroWinkler "SPOTIFY USA" "SPOTIFY USA 2" ∧
    merchantKey ⟨"SPOTIFY USA", -999/100, 0⟩ ≠
      merchantKey ⟨"SPOTIFY USA 2", -999/100, 3⟩ ∧
    chargeMerchants txC1 = ["SPOTIFY USA", "SPOTIFY USA 2"] := by
  refine ⟨by decide, by decide, by decide⟩

/-- C2: a merchant cluster appears in the detection output exactly when it
has at least 2 gaps, its mean gap lies between 5 and 400 days inclusive, and
its sample variance is below (0.3 times the mean) squared - the squared
encoding of the STDDEV criterion; in particular a merchant with exactly 2
charges never appears. -/
theorem C2_acceptance_iff (txns : List Txn) (H : List String) (m : String) :
    ((∃ r ∈ detect txns H, r.merchant = m) ↔
      (2 ≤ (gapList txns m).length ∧ 5 ≤ avgInterval txns m ∧
       avgInterval txns m ≤ 400 ∧
       varSamp (gapList txns m) < (3 / 10 * avgInterval txns m) ^ 2)) ∧
    ((clusterTx txns m).length = 2 → ¬ ∃ r ∈ detect txns H, r.merchant = m) := by
  have hmain : (∃ r ∈ detect txns H, r.merchant = m) ↔
      (2 ≤ (gapList txns m).length ∧ 5 ≤ avgInterval txns m ∧
       avgInterval txns m ≤ 400 ∧
       varSamp (gapList txns m) < (3 / 10 * avgInterval txns m) ^ 2) := by
    constructor
    · rintro ⟨r, hr, hm⟩
      rcases (mem_detect_iff txns H r).mp hr with ⟨m2, _, hacc, rfl⟩
      have hm2 : m2 = m := hm
      subst hm2
      exact (acceptsB_iff _ _).mp hacc
    · intro hc
      have hne : clusterTx txns m ≠ [] := by
        intro hnil
        have h1 := hc.1
        have h2 := gapList_length txns m
        rw [hnil] at h2
        simp only [List.length_nil] at h2
        omega
      exact ⟨mkRecord txns H m,
        (mem_detect_iff txns H _).mpr
          ⟨m, merchant_mem_of_cluster txns m hne,
            (acceptsB_iff txns m).mpr hc, rfl⟩,
        rfl⟩
  refine ⟨hmain, fun h2 hex => ?_⟩
  have h1 := (hmain.mp hex).1
  have hg := gapList_length txns m
  omega

/-- C2 witness: the GYM cluster (3 charges, gaps 31 and 30) is accepted and
appears in the output; the SOLO merchant with exactly 2 charges never
appears. -/
theorem C2_acceptance_iff_witness :
    (∃ r ∈ detect txGym [], r.merchant = "GYM") ∧
    ¬ ∃ r ∈ detect txSolo [], r.merchant = "SOLO" :=
  ⟨(C2_acceptance_iff txGym [] "GYM").1.mpr (by decide),
   (C2_acceptance_iff txSolo [] "SOLO").2 (by decide)⟩

/-- C3 counterexample: the claimed formula (pre-round the mean of ALL the
cluster's absolute amounts, then project) disagrees with the code.  For
ALPHA the code outputs 73.00 because the first charge is excluded from the
average, while the claimed formula gives 121.91; for BRAVO the code outputs
73.29 because it multiplies the unrounded mean 1.004, while the claimed
formula gives 73.00. -/
theorem C3_cost_formula_cx :
    ((detect txC3 []).filter (fun r => decide (r.merchant = "ALPHA"))).map
        SubRecord.annual_cost = [73] ∧
    specAnnualCost txC3 "ALPHA" = 12191 / 100 ∧
    ((detect txC3 []).filter (fun r => decide (r.merchant = "BRAVO"))).map
        SubRecord.annual_cost = [7329 / 100] ∧
    specAnnualCost txC3 "BRAVO" = 73 := by
  refine ⟨by decide, by decide, by decide, by decide⟩

/-- C3 (amended): for every emitted record, `interval_days` is the rounded
mean gap, `amount` is the two-decimal half-up rounding of the mean absolute
charge amount over the interval rows (all cluster charges except the
chronologically first), and `annual_cost` is `round2` applied to that
UNROUNDED mean times `365 / interval_days`. -/
theorem C3_cost_formula (txns : List Txn) (H : List String) (r : SubRecord)
    (hr : r ∈ detect txns H) :
    r.interval_days = jsRound (avgInterval txns r.merchant) ∧
    r.amount = round2 (avgAmount txns r.merchant) ∧
    r.annual_cost =
      round2 (avgAmount txns r.merchant * (365 / (r.interval_days : ℚ))) := by
  rcases (mem_detect_iff txns H r).mp hr with ⟨m, _, _, rfl⟩
  exact ⟨rfl, rfl, rfl⟩

/-- C3 witness: charges of 15.00 every 30 days follow the amended formula and
produce an annual cost of exactly 182.50. -/
theorem C3_cost_formula_witness :
    (mkRecord txSpot [] "SPOTIFY").annual_cost =
      round2 (avgAmount txSpot "SPOTIFY" *
        (365 / ((mkRecord txSpot [] "SPOTIFY").interval_days : ℚ))) ∧
    (mkRecord txSpot [] "SPOTIFY").annual_cost = 365 / 2 :=
  ⟨(C3_cost_formula txSpot [] _ (by decide)).2.2, by decide⟩

/-- C4 counterexample: the SQL orders by the unrounded ranking key, so the
rounded `annual_cost` fields of the output need not be descending: BBB (key
69.35, annual cost 69.35) is ranked above AAA (key 67.59, annual cost 73.00). -/
theorem C4_ranking_cx :
    (detect txC4 []).map SubRecord.annual_cost = [1387 / 20, 73] ∧
    ¬ List.Chain' (fun a b : ℚ => b ≤ a)
        ((detect txC4 []).map SubRecord.annual_cost) := by
  have h : (detect txC4 []).map SubRecord.annual_cost = [1387 / 20, 73] := by
    decide
  refine ⟨h, ?_⟩
  rw [h]
  simp only [List.chain'_cons, List.chain'_singleton, and_true]
  decide

theorem mkRecord_merchant (txns : List Txn) (H : List String) (m : String) :
    (mkRecord txns H m).merchant = m := rfl

/-- C4 (amended): the output is ordered descending, adjacent-pairwise, by the
unrounded SQL ranking key `avg_amount * (365 / avg_interval)`; the rounded
`annual_cost` field need not be monotone, and ties keep the embedding's
deterministic stable order with no secondary merchant-key sort. -/
theorem C4_ranking_order (txns : List Txn) (H : List String) :
    List.Chain' (fun a b => qcost txns b.merchant ≤ qcost txns a.merchant)
      (detect txns H) := by
  unfold detect
  rw [List.chain'_map]
  have hp := (pairwise_sortDesc (qcost txns)
    ((chargeMerchants txns).filter (acceptsB txns))).chain'
  simpa [mkRecord_merchant] using hp

/-- C5: the frequency label of every emitted record follows the boundary
table on its rounded mean interval d: d at most 8 is weekly, 9 to 16
bi-weekly, 17 to 35 monthly, 36 to 100 quarterly, 101 to 200 semi-annual,
and 201 or more annual. -/
theorem C5_frequency_boundaries (txns : List Txn) (H : List String)
    (r : SubRecord) (hr : r ∈ detect txns H) :
    (r.interval_days ≤ 8 → r.frequency = "weekly") ∧
    (9 ≤ r.interval_days → r.interval_days ≤ 16 → r.frequency = "bi-weekly") ∧
    (17 ≤ r.interval_days → r.interval_days ≤ 35 → r.frequency = "monthly") ∧
    (36 ≤ r.interval_days → r.interval_days ≤ 100 → r.frequency = "quarterly") ∧
    (101 ≤ r.interval_days → r.interval_days ≤ 200 →
      r.frequency = "semi-annual") ∧
    (201 ≤ r.interval_days → r.frequency = "annual") := by
  rcases (mem_detect_iff txns H r).mp hr with ⟨m, _, _, rfl⟩
  have hf : (mkRecord txns H m).frequency =
      freqLabel ((mkRecord txns H m).interval_days) := rfl
  rw [hf]
  generalize (mkRecord txns H m).interval_days = d
  unfold freqLabel
  refine ⟨?_, ?_, ?_, ?_, ?_, ?_⟩ <;> intros <;> split_ifs <;>
    first
    | rfl
    | (exfalso; omega)

/-- C5 witness: the GYM cluster has rounded mean interval 31 and is labeled
monthly by the boundary table. -/
theorem C5_frequency_boundaries_witness :
    (mkRecord txGym [] "GYM").frequency = "monthly" :=
  (C5_frequency_boundaries txGym [] _ (by decide)).2.2.1 (by decide) (by decide)

/-! Override-store helper lemmas. -/

theorem updEntry_key (m : String) (now : ℤ) (p : String × ℤ) :
    ((updEntry m now p).1 = m) ↔ (p.1 = m) := by
  unfold updEntry
  by_cases h : p.1 = m
  · simp [h]
  · simp [h]

theorem updEntry_comp (m : String) (t now : ℤ) (p : String × ℤ) :
    updEntry m now (updEntry m t p) = updEntry m now p := by
  unfold updEntry
  by_cases h : p.1 = m
  · simp [h]
  · simp [h]

theorem hasKey_map_upd (m : String) (now : ℤ) (s : OStore) :
    hasKey m (s.map (updEntry m now)) = hasKey m s := by
  induction s with
  | nil => rfl
  | cons p rest ih =>
      simp only [List.map_cons, hasKey, List.any_cons] at *
      rw [ih, decide_eq_decide.mpr (updEntry_key m now p)]

theorem map_upd_of_no_key (m : String) (now : ℤ) (s : OStore)
    (h : hasKey m s = false) : s.map (updEntry m now) = s := by
  induction s with
  | nil => rfl
  | cons p rest ih =>
      simp only [hasKey, List.any_cons, Bool.or_eq_false_iff,
        decide_eq_false_iff_not] at h
      simp only [List.map_cons]
      rw [ih (by simpa [hasKey] using h.2)]
      unfold updEntry
      rw [if_neg h.1]

theorem keyCount_map_upd (m : String) (now : ℤ) (s : OStore) :
    keyCount m (s.map (updEntry m now)) = keyCount m s := by
  induction s with
  | nil => rfl
  | cons p rest ih =>
      simp only [List.map_cons, keyCount, List.countP_cons] at *
      rw [ih, decide_eq_decide.mpr (updEntry_key m now p)]

theorem keyCount_zero_of_no_key (m : String) (s : OStore)
    (h : hasKey m s = false) : keyCount m s = 0 := by
  unfold keyCount
  refine List.countP_eq_zero.mpr ?_
  intro p hp
  simp only [hasKey, List.any_eq_false, decide_eq_true_eq] at h
  simpa using h p hp

theorem keyCount_one_of_nodup (m : String) (s : OStore)
    (hn : (s.map Prod.fst).Nodup) (hk : hasKey m s = true) :
    keyCount m s = 1 := by
  induction s with
  | nil => cases hk
  | cons p rest ih =>
      rw [List.map_cons] at hn
      rcases List.nodup_cons.mp hn with ⟨hp, hrest⟩
      by_cases he : p.1 = m
      · have h0 : hasKey m rest = false := by
          by_contra hcon
          rw [Bool.not_eq_false] at hcon
          simp only [hasKey, List.any_eq_true, decide_eq_true_eq] at hcon
          obtain ⟨q, hq, hqm⟩ := hcon
          refine hp ?_
          rw [he, ← hqm]
          exact List.mem_map.mpr ⟨q, hq, rfl⟩
        have hz := keyCount_zero_of_no_key m rest h0
        simp only [keyCount] at hz
        simp [keyCount, List.countP_cons, he, hz]
      · have hk2 : hasKey m rest = true := by
          simp only [hasKey, List.any_cons] at hk
          rcases Bool.or_eq_true_iff.mp hk with h1 | h1
          · exact absurd (of_decide_eq_true h1) he
          · exact h1
        have hone := ih hrest hk2
        simp only [keyCount] at hone ⊢
        simp [List.countP_cons, he, hone]

/-! The remaining claims. -/

/-- C8: the hide upsert is idempotent - a second hide only refreshes the
timestamp (the two writes collapse to the last one) and the key still has
exactly one row; unhiding a never-hidden key is a no-op, and both writes are
total functions, so neither can raise. -/
theorem C8_hide_unhide_idempotent (s : OStore) (m : String) (t now : ℤ)
    (h : (s.map Prod.fst).Nodup) :
    hideStore now m (hideStore t m s) = hideStore now m s ∧
    keyCount m (hideStore now m s) = 1 ∧
    (hasKey m s = false → unhideStore m s = s) := by
  refine ⟨?_, ?_, ?_⟩
  · unfold hideStore
    by_cases hk : hasKey m s = true
    · rw [if_pos hk, if_pos (by rw [hasKey_map_upd]; exact hk), if_pos hk,
        List.map_map]
      apply List.map_congr_left
      intro p _
      exact updEntry_comp m t now p
    · rw [if_neg hk, if_neg hk,
        if_pos (by
          simp [hasKey, List.any_append])]
      rw [List.map_append,
        map_upd_of_no_key m now s (Bool.eq_false_iff.mpr hk)]
      simp [updEntry]
  · unfold hideStore
    by_cases hk : hasKey m s = true
    · rw [if_pos hk, keyCount_map_upd]
      exact keyCount_one_of_nodup m s h hk
    · rw [if_neg hk]
      have h0 := keyCount_zero_of_no_key m s (Bool.eq_false_iff.mpr hk)
      simp only [keyCount, List.countP_append] at h0 ⊢
      simp [h0]
  · intro hk
    unfold unhideStore
    apply List.filter_eq_self.mpr
    intro p hp
    simp only [hasKey, List.any_eq_false, decide_eq_true_eq] at hk
    simpa using hk p hp

/-- C8 witness: on a store holding only a NETFLIX row, hiding SPOTIFY twice
collapses to one write, leaves exactly one SPOTIFY row, and unhiding the
never-hidden SPOTIFY leaves the store unchanged. -/
theorem C8_hide_unhide_idempotent_witness :
    (([("NETFLIX", (5 : ℤ))].map Prod.fst).Nodup) ∧
    (hideStore 9 "SPOTIFY" (hideStore 7 "SPOTIFY" [("NETFLIX", 5)]) =
      hideStore 9 "SPOTIFY" [("NETFLIX", 5)] ∧
     keyCount "SPOTIFY" (hideStore 9 "SPOTIFY" [("NETFLIX", 5)]) = 1 ∧
     (hasKey "SPOTIFY" [("NETFLIX", (5 : ℤ))] = false →
       unhideStore "SPOTIFY" [("NETFLIX", 5)] = [("NETFLIX", 5)])) :=
  ⟨by decide, C8_hide_unhide_idempotent [("NETFLIX", 5)] "SPOTIFY" 7 9 (by decide)⟩

/-- C6 (amended): when the transaction query fails, the run signals the
warning flag and leaves the previously computed subscription list untouched;
nothing is fabricated, and the result is empty only when no earlier
successful run had populated the state. -/
theorem C6_failure_keeps_previous (prev : List SubRecord) (e : String)
    (H : List String) :
    detectRun prev (Except.error e) H = (prev, true) := rfl

/-- C6 counterexample: after a successful run over the GYM ledger, a failing
query does not return the empty result set the claim requires - the stale
list from the previous run is retained (the warning is signaled). -/
theorem C6_failure_cx :
    (detectRun (detect txGym []) (Except.error "transactions unavailable")
        []).1 ≠ [] ∧
    (detectRun (detect txGym []) (Except.error "transactions unavailable")
        []).2 = true := by
  refine ⟨by decide, rfl⟩

theorem detect_strip_const (txns : List Txn) (A B : List String) :
    (detect txns A).map stripHidden = (detect txns B).map stripHidden := by
  unfold detect
  rw [List.map_map, List.map_map]
  apply List.map_congr_left
  intro m _
  rfl

theorem record_is_hidden (txns : List Txn) (H : List String) (r : SubRecord)
    (hr : r ∈ detect txns H) : r.is_hidden = decide (r.merchant ∈ H) := by
  rcases (mem_detect_iff txns H r).mp hr with ⟨m, _, _, rfl⟩
  rfl

/-- C7: hiding only flips the hidden flag - detection re-run with the
merchant added to (or removed from) the hidden set yields the same records up
to `is_hidden`; the hidden merchant's record is still emitted, now flagged
`is_hidden = true`, and after unhide it is emitted with `is_hidden = false`
and no other change. -/
theorem C7_hide_is_frame (txns : List Txn) (H : List String) (m : String) :
    ((detect txns (H.insert m)).map stripHidden =
      (detect txns H).map stripHidden) ∧
    (∀ r ∈ detect txns (H.insert m), r.merchant = m → r.is_hidden = true) ∧
    ((detect txns (H.filter (fun x => decide (x ≠ m)))).map stripHidden =
      (detect txns H).map stripHidden) ∧
    (∀ r ∈ detect txns (H.filter (fun x => decide (x ≠ m))), r.merchant = m →
      r.is_hidden = false) := by
  refine ⟨detect_strip_const txns _ _, ?_, detect_strip_const txns _ _, ?_⟩
  · intro r hr hm
    rw [record_is_hidden txns _ r hr, hm]
    simp [List.mem_insert_iff]
  · intro r hr hm
    rw [record_is_hidden txns _ r hr, hm]
    simp [List.mem_filter]

/-- C7 witness: hiding GYM keeps its record in the output of a re-run (same
record up to the flag, now true); unhiding restores the flag to false. -/
theorem C7_hide_is_frame_witness :
    ((detect txGym (([] : List String).insert "GYM")).map stripHidden =
      (detect txGym []).map stripHidden) ∧
    (mkRecord txGym (([] : List String).insert "GYM") "GYM").is_hidden =
      true ∧
    (mkRecord txGym ((["GYM"] : List String).filter
        (fun x => decide (x ≠ "GYM"))) "GYM").is_hidden = false := by
  have h1 := C7_hide_is_frame txGym [] "GYM"
  have h2 := C7_hide_is_frame txGym ["GYM"] "GYM"
  exact ⟨h1.1, h1.2.1 _ (by decide) rfl, h2.2.2.2 _ (by decide) rfl⟩

/-- C9: a failed hide or unhide write leaves the in-memory hidden set (and
hence the visible list) unchanged and signals the recoverable error flag;
the set is updated only on the confirmed-write path. -/
theorem C9_no_optimistic_update (m : String) (hidden : List String)
    (subs : List SubRecord) (sh : Bool) :
    hideAction false m hidden = (hidden, true) ∧
    unhideAction false m hidden = (hidden, true) ∧
    visibleSubs subs (hideAction false m hidden).1 sh =
      visibleSubs subs hidden sh ∧
    visibleSubs subs (unhideAction false m hidden).1 sh =
      visibleSubs subs hidden sh :=
  ⟨rfl, rfl, rfl, rfl⟩

/-- C10: every emitted record has `interval_days` between 5 and 400 (so the
365 division is well defined), at least 3 occurrences, and one of the six
frequency labels - the initializer "unknown" is unreachable. -/
theorem C10_output_invariants (txns : List Txn) (H : List String)
    (r : SubRecord) (hr : r ∈ detect txns H) :
    5 ≤ r.interval_days ∧ r.interval_days ≤ 400 ∧
    3 ≤ r.occurrence_count ∧
    (r.frequency = "weekly" ∨ r.frequency = "bi-weekly" ∨
     r.frequency = "monthly" ∨ r.frequency = "quarterly" ∨
     r.frequency = "semi-annual" ∨ r.frequency = "annual") ∧
    r.frequency ≠ "unknown" := by
  rcases (mem_detect_iff txns H r).mp hr with ⟨m, _, hacc, rfl⟩
  rcases (acceptsB_iff txns m).mp hacc with ⟨hlen, h5, h400, _⟩
  have hi : (mkRecord txns H m).interval_days =
      jsRound (avgInterval txns m) := rfl
  have hocc : (mkRecord txns H m).occurrence_count =
      (gapList txns m).length + 1 := rfl
  have hfreq : (mkRecord txns H m).frequency =
      freqLabel (jsRound (avgInterval txns m)) := rfl
  refine ⟨?_, ?_, ?_, ?_, ?_⟩
  · rw [hi]
    exact jsRound_ge _ 5 (by exact_mod_cast h5)
  · rw [hi]
    exact jsRound_le _ 400 (by exact_mod_cast h400)
  · rw [hocc]
    omega
  · rw [hfreq]
    exact freqLabel_total _
  · rw [hfreq]
    rcases freqLabel_total (jsRound (avgInterval txns m)) with h|h|h|h|h|h <;>
      rw [h] <;> decide

/-- C10 witness: the GYM record satisfies every output invariant. -/
theorem C10_output_invariants_witness :
    5 ≤ (mkRecord txGym [] "GYM").interval_days ∧
    (mkRecord txGym [] "GYM").interval_days ≤ 400 ∧
    3 ≤ (mkRecord txGym [] "GYM").occurrence_count ∧
    ((mkRecord txGym [] "GYM").frequency = "weekly" ∨
     (mkRecord txGym [] "GYM").frequency = "bi-weekly" ∨
     (mkRecord txGym [] "GYM").frequency = "monthly" ∨
     (mkRecord txGym [] "GYM").frequency = "quarterly" ∨
     (mkRecord txGym [] "GYM").frequency = "semi-annual" ∨
     (mkRecord txGym [] "GYM").frequency = "annual") ∧
    (mkRecord txGym [] "GYM").frequency ≠ "unknown" :=
  C10_output_invariants txGym [] _ (by decide)
